import Mathlib

/-!
Verification development for the portiq gateway: a shallow embedding of the
router, load balancer, middleware chain, rate limiter, proxy-header logic,
access logger, configuration reload and HTTP front-end host extraction,
together with theorems settling the specification claims.

Strings are modelled as lists of characters (`Str`), header maps and the
rate-limit store as association lists, machine integers as `Nat`, and the
floating-point token arithmetic of the rate limiter as exact rationals.
Monotonic `Instant` timestamps are modelled as rational time points.
-/

namespace Portiq

/-- Strings from the Rust source, modelled as character lists so that all
operations reduce in the kernel. -/
abbrev Str := List Char

/-- Header maps (hyper `HeaderMap`, with names already lowercased, values
modelled as strings) as association lists in insertion order. -/
abbrev Headers := List (Str × Str)

/-- Embedding of `HeaderMap::get` followed by a successful `to_str`:
first entry with the given name. -/
def getHeader (headers : Headers) (name : Str) : Option Str :=
  (headers.find? (fun p => p.1 == name)).map (fun p => p.2)

/-- Embedding of `HeaderMap::contains_key`. -/
def containsHeader (headers : Headers) (name : Str) : Bool :=
  (getHeader headers name).isSome

/-! ## Router (src/router.rs) -/

/-- Runtime `Route` from src/router.rs. -/
structure Route where
  hosts : Option (List Str)
  path : Option Str
  listeners : List Str
  service : Str
  middlewares : List Str
deriving DecidableEq, Repr

/-- Precedence score used by `Router::get_route`: one point when `hosts`
is declared, one point when `path` is declared. -/
def Route.score (r : Route) : Nat :=
  (if r.hosts.isSome then 1 else 0) + (if r.path.isSome then 1 else 0)

/-- Embedding of `Router::match_host`: a pattern starting with `*.` matches
when the host ends with the rest of the pattern and is not equal to it
(`strip_prefix`, `ends_with`); otherwise exact equality. The loop over the
declared hosts returns true on the first match. -/
def matchHost (host : Str) (routerHosts : List Str) : Bool :=
  routerHosts.any fun rh =>
    if ['*', '.'].isPrefixOf rh then
      let rest := rh.drop 2
      rest.isSuffixOf host && host != rest
    else
      rh == host

/-- Embedding of `Router::match_path`. When the configured path ends with
`/*`, the code slices off the final character (keeping the slash) and, for
request paths that do not themselves end in `/`, also slices off that slash
before the starts_with test; otherwise exact match or exact match plus a
trailing slash. -/
def matchPath (path routerPath : Str) : Bool :=
  if ['/', '*'].isSuffixOf routerPath then
    let prefixStr := routerPath.dropLast
    if ['/'].isSuffixOf path then
      prefixStr.isPrefixOf path
    else
      prefixStr.dropLast.isPrefixOf path
  else
    path == routerPath || path == routerPath ++ ['/']

/-- Embedding of `Router::match_listener`. -/
def matchListener (listener : Str) (routerListeners : List Str) : Bool :=
  routerListeners.any (fun rl => rl == listener)

/-- The filter predicate of `Router::get_route`: listener must match, and the
host and path predicates match unconditionally when the route does not
declare them. -/
def routeMatches (host path listener : Str) (r : Route) : Bool :=
  matchListener listener r.listeners
    && (match r.hosts with
        | some routerHosts => matchHost host routerHosts
        | none => true)
    && (match r.path with
        | some routerPath => matchPath path routerPath
        | none => true)

/-- Rust `Iterator::max_by_key`: among elements of maximal key, the LAST one
is returned (per its documentation). Embedded by structural recursion: the
maximum of the tail wins ties against the head. -/
def maxByKeyLast (f : α → Nat) : List α → Option α
  | [] => none
  | x :: xs =>
    match maxByKeyLast f xs with
    | none => some x
    | some y => if f y < f x then some x else some y

/-- Embedding of `Router::get_route`: filter the routes by the three
predicates, then take the route of maximal precedence score
(`max_by_key`, last maximal element on ties). `none` stands for
`Err(RouterError::NotFound)`. -/
def get_route (routes : List Route) (host path listener : Str) : Option Route :=
  maxByKeyLast Route.score (routes.filter (routeMatches host path listener))

/-! ## Load balancer (src/load_balancer/mod.rs) -/

/-- `Upstream` from src/config.rs (`target`, `weight` with default 1). -/
structure Upstream where
  target : Str
  weight : Nat
deriving DecidableEq, Repr

/-- The loop of `WeightedRoundRobin::new` building the flattened `weighted`
index array starting at index `start`: each upstream index is replicated
`weight` times. -/
def weightedOf : List Upstream → Nat → List Nat
  | [], _ => []
  | u :: us, start => List.replicate u.weight start ++ weightedOf us (start + 1)

/-- The `weighted` array of `WeightedRoundRobin::new` (indices start at 0). -/
def weightedArr (us : List Upstream) : List Nat :=
  weightedOf us 0

/-- Total weight of the upstream pool, the length of `weighted`. -/
def totalWeight (us : List Upstream) : Nat :=
  (us.map Upstream.weight).sum

/-- Embedding of `WeightedRoundRobin::select` for a sequential caller: given
the cursor (`next_index`), return the selected upstream index (if any) and
the advanced cursor `(cursor + 1) % len(weighted)`. On an empty weighted
array the cursor is left untouched and nothing is selected. -/
def select (us : List Upstream) (cursor : Nat) : Option Nat × Nat :=
  let w := weightedArr us
  if w.isEmpty then
    (none, cursor)
  else
    (some (w.getD cursor 0), (cursor + 1) % w.length)

/-- Cursor value after `n` sequential `select` calls starting from the fresh
balancer (`next_index = 0`). -/
def cursorAfter (us : List Upstream) : Nat → Nat
  | 0 => 0
  | n + 1 => (select us (cursorAfter us n)).2

/-- Result (upstream index) of the `k`-th sequential `select` call,
counting from 0, on a freshly constructed balancer. -/
def nthSelect (us : List Upstream) (k : Nat) : Option Nat :=
  (select us (cursorAfter us k)).1

/-! ## Token bucket rate limiter (src/middleware/rate_limiter/token_bucket.rs) -/

/-- `TokenBucket`: capacity is a `u32`; the `f64` token count and refill rate
are modelled as exact rationals; the `Instant` timestamp as a rational time
point. -/
structure TokenBucket where
  capacity : Nat
  refill_rate : Rat
  available_tokens : Rat
  last_refill : Rat
deriving DecidableEq, Repr

/-- `TokenBucket::new`: a fresh bucket starts full, stamped with the current
time. -/
def TokenBucket.new (capacity : Nat) (rate : Rat) (now : Rat) : TokenBucket :=
  { capacity := capacity
    refill_rate := rate
    available_tokens := (capacity : Rat)
    last_refill := now }

/-- Embedding of `TokenBucket::refill`: elapsed time is
`now.duration_since(last_refill)` (zero when `now` is earlier, as `Duration`
cannot be negative); tokens are added, capped at capacity, and the timestamp
advanced only when the computed amount is positive. -/
def TokenBucket.refill (b : TokenBucket) (now : Rat) : TokenBucket :=
  let elapsed := max (now - b.last_refill) 0
  let tokensToAdd := b.refill_rate * elapsed
  if 0 < tokensToAdd then
    let total := b.available_tokens + tokensToAdd
    { b with
        available_tokens := if (b.capacity : Rat) < total then (b.capacity : Rat) else total
        last_refill := now }
  else
    b

/-- Embedding of `TokenBucket::allow`: refill, then admit and subtract one
token when at least one token is available. -/
def TokenBucket.allow (b : TokenBucket) (now : Rat) : Bool × TokenBucket :=
  let b2 := b.refill now
  if 1 ≤ b2.available_tokens then
    (true, { b2 with available_tokens := b2.available_tokens - 1 })
  else
    (false, b2)

/-- The per-middleware `HashMap<String, TokenBucket>` store as an association
list. -/
abbrev BucketStore := List (Str × TokenBucket)

/-- `HashMap::get` on the store. -/
def lookupBucket (store : BucketStore) (key : Str) : Option TokenBucket :=
  (store.find? (fun p => p.1 == key)).map (fun p => p.2)

/-- In-place mutation of the bucket stored under `key`. -/
def updateBucket (store : BucketStore) (key : Str) (b : TokenBucket) : BucketStore :=
  store.map fun p => if p.1 == key then (key, b) else p

/-- `RateLimitKeySource` from src/config.rs. -/
inductive RateLimitKeySource where
  | ip (headerName : Option Str)
  | requestHeader (name : Str)
deriving DecidableEq, Repr

/-- The HTTP request data used by the embedded components: method, request
URI path and authority host, headers, and the client-IP request extension. -/
structure HttpRequest where
  method : Str
  uriPath : Str
  uriHost : Option Str
  headers : Headers
  client_ip : Option Str
deriving DecidableEq, Repr

/-- Key derivation of `TokenBucketRateLimiter::call` per
`RateLimitKeySource`; the client IP extension defaults to `127.0.0.1`, a
named request header to the client IP (for `ip`) or `-` (for
`request_header`). -/
def deriveKey (source : RateLimitKeySource) (req : HttpRequest) : Str :=
  match source with
  | .ip (some headerName) =>
    match getHeader req.headers headerName with
    | some v => v
    | none => req.client_ip.getD "127.0.0.1".data
  | .ip none => req.client_ip.getD "127.0.0.1".data
  | .requestHeader headerName => (getHeader req.headers headerName).getD "-".data

/-- Embedding of `TokenBucketRateLimiter::allow` (`RateLimiter` impl): the
store entry for the key is created full on first sight with
`capacity = limit` and `refill_rate = limit / period_seconds`, then its
`TokenBucket::allow` runs. -/
def storeAllow (limit : Nat) (period : Rat) (store : BucketStore) (key : Str)
    (now : Rat) : Bool × BucketStore :=
  match lookupBucket store key with
  | some b =>
    let r := b.allow now
    (r.1, updateBucket store key r.2)
  | none =>
    let b := TokenBucket.new limit ((limit : Rat) / period) now
    let r := b.allow now
    (r.1, (key, r.2) :: store)

/-- Embedding of `TokenBucketRateLimiter::retry_after`: for a known key,
zero when a token is available, otherwise `ceil((1 - available) / rate)`
seconds. -/
def storeRetryAfter (store : BucketStore) (key : Str) : Option Nat :=
  match lookupBucket store key with
  | some b =>
    if 1 ≤ b.available_tokens then
      some 0
    else
      some (⌈(1 - b.available_tokens) / b.refill_rate⌉.toNat)
  | none => none

/-- `TokenBucketRateLimiter` middleware configuration: key source, limit and
period (seconds). -/
structure TokenBucketRateLimiter where
  source : RateLimitKeySource
  limit : Nat
  duration : Rat
deriving DecidableEq, Repr

/-- Outcome of one `Middleware::call` of the rate limiter: either the request
is passed to `next.run`, or a 429 response with an empty body and the given
`Retry-After` value (seconds) is produced. -/
inductive RLCallResult where
  | passed
  | limited (retryAfter : Nat)
deriving DecidableEq, Repr

/-- Embedding of `impl Middleware for TokenBucketRateLimiter::call`: derive
the key, consult the bucket store; on denial answer 429 with
`Retry-After = retry_after(key)` (0 if the key vanished). -/
def TokenBucketRateLimiter.call (rl : TokenBucketRateLimiter) (req : HttpRequest)
    (store : BucketStore) (now : Rat) : RLCallResult × BucketStore :=
  let key := deriveKey rl.source req
  let r := storeAllow rl.limit rl.duration store key now
  if r.1 then
    (.passed, r.2)
  else
    (.limited ((storeRetryAfter r.2 key).getD 0), r.2)

/-- Results and final store of `n` back-to-back calls of the rate limiter on
the same request (no time elapsing between them). -/
def runCalls (rl : TokenBucketRateLimiter) (req : HttpRequest) (now : Rat) :
    Nat → BucketStore → List RLCallResult × BucketStore
  | 0, store => ([], store)
  | n + 1, store =>
    let r := rl.call req store now
    let rest := runCalls rl req now n r.2
    (r.1 :: rest.1, rest.2)

/-- One operation on a token bucket: an `allow` or a bare `refill`, at a
given time point. -/
inductive BucketOp where
  | allowOp (now : Rat)
  | refillOp (now : Rat)
deriving DecidableEq, Repr

/-- Apply one bucket operation. -/
def TokenBucket.step (b : TokenBucket) : BucketOp → TokenBucket
  | .allowOp now => (b.allow now).2
  | .refillOp now => b.refill now

/-- Apply a sequence of bucket operations. -/
def TokenBucket.runOps (b : TokenBucket) (ops : List BucketOp) : TokenBucket :=
  ops.foldl TokenBucket.step b

/-! ## Middleware registry and chain (src/middleware/registry.rs, mod.rs) -/

/-- `MiddlewareConfig` from src/config.rs (tagged union). -/
inductive MiddlewareConfig where
  | addPrefixMw (pfx : Str)
  | rateLimitMw (source : RateLimitKeySource) (limit : Nat) (period : Rat)
deriving DecidableEq, Repr

/-- The middlewares a built chain can contain. -/
inductive Mw where
  | requestId
  | accessLog
  | addPrefixMw (pfx : Str)
deriving DecidableEq, Repr

/-- Embedding of `MiddlewareRegistry::create_chain`. `init` registers the
`request_id`, `access_log` and `add_prefix` factories, so the two leading
pushes always fire and every `AddPrefix` config is mapped; the `filter_map`
match has an arm only for the `AddPrefix` variant, so a `RateLimit` config
contributes no middleware (`RateLimiterFactory` is never registered in
`MiddlewareRegistry::init`). -/
def create_chain (middlewares : List MiddlewareConfig) : List Mw :=
  [Mw.requestId, Mw.accessLog]
    ++ middlewares.filterMap (fun cfg =>
      match cfg with
      | .addPrefixMw p => some (Mw.addPrefixMw p)
      | .rateLimitMw _ _ _ => none)

/-! ## Access logger (src/middleware/access_logger.rs) -/

/-- Levels of the two `tracing` emit branches. -/
inductive LogLevel where
  | info
  | error
deriving DecidableEq, Repr

/-- The structured record emitted to the `access` target. -/
structure AccessRecord where
  status : Nat
  method : Str
  path : Str
  duration_ms : Nat
  client_ip : Str
  user_agent : Str
  request_id : Str
deriving DecidableEq, Repr

/-- hyper `StatusCode::is_success`: the 2xx range. -/
def isSuccessStatus (status : Nat) : Bool :=
  200 ≤ status && status ≤ 299

/-- Embedding of `AccessLogger::call`: capture method, path, `User-Agent`
(default `-`), the client-IP extension (default `127.0.0.1`) and the
`x-request-id` header (default `-`); run the inner service (modelled by its
response status); then emit exactly one record, at INFO level when
`status.is_success()` and at ERROR level otherwise. Returned: the response
status and the list of emitted `(level, record)` pairs. -/
def accessLoggerCall (req : HttpRequest) (inner : HttpRequest → Nat)
    (duration_ms : Nat) : Nat × List (LogLevel × AccessRecord) :=
  let user_agent := (getHeader req.headers "user-agent".data).getD "-".data
  let client_ip := req.client_ip.getD "127.0.0.1".data
  let request_id := (getHeader req.headers "x-request-id".data).getD "-".data
  let status := inner req
  let record : AccessRecord :=
    { status := status
      method := req.method
      path := req.uriPath
      duration_ms := duration_ms
      client_ip := client_ip
      user_agent := user_agent
      request_id := request_id }
  if isSuccessStatus status then
    (status, [(LogLevel.info, record)])
  else
    (status, [(LogLevel.error, record)])

/-! ## Configuration and reload (src/config.rs) -/

/-- `LogFormat`. -/
inductive LogFormat where
  | compact
  | json
deriving DecidableEq, Repr

/-- `Protocol` (this source tree has `http` and `https`). -/
inductive Protocol where
  | http
  | https
deriving DecidableEq, Repr

/-- `AdminAPIConfig` (the socket address modelled as a string). -/
structure AdminAPIConfig where
  addr : Str
deriving DecidableEq, Repr

/-- `GatewayLog`. -/
structure GatewayLog where
  level : Str
  format : LogFormat
  file_path : Str
deriving DecidableEq, Repr

/-- `AccessLog`. -/
structure AccessLog where
  enabled : Bool
  format : LogFormat
  file_path : Str
deriving DecidableEq, Repr

/-- `TLSConfig` (file paths as strings). -/
structure TLSConfig where
  cert_file : Str
  key_file : Str
  dflt : Bool
  hostnames : Option (List Str)
deriving DecidableEq, Repr

/-- `Listener`. -/
structure Listener where
  name : Str
  addr : Str
  protocol : Protocol
deriving DecidableEq, Repr

/-- `RouteConfig`. -/
structure RouteConfig where
  hosts : Option (List Str)
  path : Option Str
  listeners : List Str
  service : Str
  middlewares : Option (List Str)
deriving DecidableEq, Repr

/-- `HttpServiceConfig`. -/
structure HttpServiceConfig where
  upstreams : List Upstream
deriving DecidableEq, Repr

/-- `HttpConfig` (the two maps as association lists). -/
structure HttpConfig where
  middlewares : List (Str × MiddlewareConfig)
  services : List (Str × HttpServiceConfig)
  routes : List RouteConfig
deriving DecidableEq, Repr

/-- `GatewayConfig`. -/
structure GatewayConfig where
  version : Nat
  admin_api : AdminAPIConfig
  log : GatewayLog
  access_log : AccessLog
  tls : Option (List TLSConfig)
  listeners : List Listener
  http : HttpConfig
deriving DecidableEq, Repr

/-- Embedding of `static_config_same`: structural equality (`PartialEq`) of
the six static fields. -/
def static_config_same (previous next : GatewayConfig) : Bool :=
  previous.version == next.version
    && previous.admin_api == next.admin_api
    && previous.log == next.log
    && previous.access_log == next.access_log
    && previous.tls == next.tls
    && previous.listeners == next.listeners

/-- The route list `Router::new` builds from a `GatewayConfig` (absent
`middlewares` becomes the empty list). -/
def routerOfConfig (cfg : GatewayConfig) : List Route :=
  cfg.http.routes.map fun rc =>
    { hosts := rc.hosts
      path := rc.path
      listeners := rc.listeners
      service := rc.service
      middlewares := rc.middlewares.getD [] }

/-- `GatewayRuntime` (`router` and `applied_config`; the service registry is
determined by the config and not needed by the claims). -/
structure GatewayRuntime where
  router : List Route
  applied_config : GatewayConfig
deriving DecidableEq, Repr

/-- `GatewayRuntime::new`. -/
def GatewayRuntime.new (cfg : GatewayConfig) : GatewayRuntime :=
  { router := routerOfConfig cfg, applied_config := cfg }

/-- Embedding of `reload_config`: the freshly loaded (and validated) config
is passed in as an `Except` (`load_config` reads the file system); on load
failure or on a static-field difference the current runtime is kept and an
error returned; otherwise a new runtime is built and stored. -/
def reload_config (current : GatewayRuntime) (loaded : Except String GatewayConfig) :
    Except String Unit × GatewayRuntime :=
  match loaded with
  | .error e => (.error e, current)
  | .ok cfg =>
    if !static_config_same current.applied_config cfg then
      (.error "Static fields of config has changed, config not applied", current)
    else
      (.ok (), GatewayRuntime.new cfg)

/-! ## Proxy headers (src/utils.rs) -/

/-- The lowercase header names involved. -/
def xffName : Str := "x-forwarded-for".data

/-- Header name x-forwarded-host. -/
def xfhName : Str := "x-forwarded-host".data

/-- Header name x-forwarded-proto. -/
def xfpName : Str := "x-forwarded-proto".data

/-- Embedding of `set_proxy_headers`: the reqwest builder is modelled as the
list of headers set on it so far, appended in call order. When the original
request carries `x-forwarded-for`, the outbound value is
`<original>,<client_ip>`, else `<client_ip>`; `x-forwarded-host` and
`x-forwarded-proto` are set only when absent from the original headers. -/
def set_proxy_headers (client_ip host proto : Str) (builder : Headers)
    (original_headers : Headers) : Headers :=
  let b1 :=
    match getHeader original_headers xffName with
    | some val => builder ++ [(xffName, val ++ ",".data ++ client_ip)]
    | none => builder ++ [(xffName, client_ip)]
  let b2 :=
    if containsHeader original_headers xfhName then b1
    else b1 ++ [(xfhName, host)]
  if containsHeader original_headers xfpName then b2
  else b2 ++ [(xfpName, proto)]

/-! ## HTTP front-end host extraction (src/server/http.rs) -/

/-- Outcome of the host computation in `handle_client`: either a host string
or the panic of `Option::unwrap` on `None` (the connection task dies). -/
inductive HostExtraction where
  | ok (host : Str)
  | panicked
deriving DecidableEq, Repr

/-- Embedding of the host extraction in `handle_client`: prefer the `Host`
header (values modelled as valid strings); otherwise
`request.uri().host().unwrap()`, which panics when the request URI has no
authority component. -/
def extractHost (req : HttpRequest) : HostExtraction :=
  match getHeader req.headers "host".data with
  | some h => .ok h
  | none =>
    match req.uriHost with
    | some h => .ok h
    | none => .panicked

/-! ## Concrete instances used by counterexamples and witnesses -/

/-- First route of the tie demo: hosts declared, no path, service a. -/
def routeA : Route :=
  { hosts := some ["h".data]
    path := none
    listeners := ["l".data]
    service := "service-a".data
    middlewares := [] }

/-- Second route of the tie demo: same predicates and score, service b. -/
def routeB : Route :=
  { hosts := some ["h".data]
    path := none
    listeners := ["l".data]
    service := "service-b".data
    middlewares := [] }

/-- A request with neither a Host header nor a URI authority. -/
def reqNoHost : HttpRequest :=
  { method := "GET".data
    uriPath := "/".data
    uriHost := none
    headers := []
    client_ip := none }

/-- A request carrying a Host header. -/
def reqWithHost : HttpRequest :=
  { method := "GET".data
    uriPath := "/".data
    uriHost := none
    headers := [("host".data, "api.example.com".data)]
    client_ip := none }

/-- A two-upstream pool with weights 2 and 1 (total weight 3). -/
def demoUpstreams : List Upstream :=
  [{ target := "upstream-a".data, weight := 2 },
   { target := "upstream-b".data, weight := 1 }]

/-- A bucket with capacity 5, refill rate one half token per second, created
at time 0. -/
def demoBucket : TokenBucket := TokenBucket.new 5 (1 / 2) 0

/-- A short operation sequence on the demo bucket. -/
def demoOps : List BucketOp := [.allowOp 0, .refillOp 4, .allowOp 4]

/-- A concrete gateway configuration. -/
def cfg0 : GatewayConfig :=
  { version := 1
    admin_api := { addr := "127.0.0.1:5678".data }
    log := { level := "INFO".data, format := .compact, file_path := "stdout".data }
    access_log := { enabled := true, format := .compact, file_path := "stdout".data }
    tls := none
    listeners := [{ name := "http-main".data, addr := "0.0.0.0:3000".data, protocol := .http }]
    http := { middlewares := [], services := [], routes := [] } }

/-- The same configuration with a different (static) `version` field. -/
def cfg1 : GatewayConfig := { cfg0 with version := 2 }

/-- The runtime built from `cfg0`. -/
def rt0 : GatewayRuntime := GatewayRuntime.new cfg0

/-- A request whose client-IP extension is `10.0.0.1`. -/
def demoReq : HttpRequest :=
  { method := "GET".data
    uriPath := "/".data
    uriHost := none
    headers := []
    client_ip := some "10.0.0.1".data }

/-! ## Theorems -/

/-- Refilling at the bucket timestamp itself adds nothing and changes
nothing. -/
theorem refill_at_last (b : TokenBucket) : b.refill b.last_refill = b := by
  simp [TokenBucket.refill]

/-- `allow` at the bucket timestamp with at least one token: admitted, one
token subtracted. -/
theorem allow_same_time (c : Nat) (rate q now : Rat) (hq : 1 ≤ q) :
    TokenBucket.allow ⟨c, rate, q, now⟩ now = (true, ⟨c, rate, q - 1, now⟩) := by
  have hr : TokenBucket.refill ⟨c, rate, q, now⟩ now = ⟨c, rate, q, now⟩ :=
    refill_at_last ⟨c, rate, q, now⟩
  simp [TokenBucket.allow, hr, hq]

/-- `allow` at the bucket timestamp with less than one token: denied, bucket
unchanged. -/
theorem allow_same_time_denied (c : Nat) (rate q now : Rat) (hq : ¬1 ≤ q) :
    TokenBucket.allow ⟨c, rate, q, now⟩ now = (false, ⟨c, rate, q, now⟩) := by
  have hr : TokenBucket.refill ⟨c, rate, q, now⟩ now = ⟨c, rate, q, now⟩ :=
    refill_at_last ⟨c, rate, q, now⟩
  simp [TokenBucket.allow, hr, hq]

/-- Lookup at the head of the store. -/
theorem lookupBucket_cons_self (key : Str) (b : TokenBucket) (store : BucketStore) :
    lookupBucket ((key, b) :: store) key = some b := by
  rw [lookupBucket, List.find?_cons_of_pos _ (by simp)]
  rfl

/-- Updating the head entry of a store whose tail does not mention the key. -/
theorem updateBucket_cons_fresh (key : Str) (b b' : TokenBucket) (store : BucketStore)
    (hfr : ∀ p ∈ store, (p.1 == key) = false) :
    updateBucket ((key, b) :: store) key b' = (key, b') :: store := by
  rw [updateBucket, List.map_cons]
  congr 1
  · simp
  · conv_rhs => rw [← List.map_id store]
    apply List.map_congr_left
    intro p hp
    rw [hfr p hp]
    simp

/-- A key that `lookupBucket` does not find matches no entry. -/
theorem fresh_of_lookup_none (store : BucketStore) (key : Str)
    (h : lookupBucket store key = none) : ∀ p ∈ store, (p.1 == key) = false := by
  intro p hp
  rw [lookupBucket, Option.map_eq_none'] at h
  simpa using List.find?_eq_none.mp h p hp

/-- The first rate-limiter call for a key not yet in the store (with
positive limit): the bucket is created full, one token is taken, and the
request passes. -/
theorem first_call_fresh (src : RateLimitKeySource) (L : Nat) (T : Rat)
    (req : HttpRequest) (now : Rat) (store0 : BucketStore)
    (hL : 0 < L) (hfresh : lookupBucket store0 (deriveKey src req) = none) :
    TokenBucketRateLimiter.call ⟨src, L, T⟩ req store0 now
      = (.passed, (deriveKey src req, ⟨L, (L : Rat) / T, (L : Rat) - 1, now⟩) :: store0) := by
  have h1 : (1 : Rat) ≤ (L : Rat) := by exact_mod_cast hL
  simp [TokenBucketRateLimiter.call, storeAllow, hfresh, TokenBucket.new,
    allow_same_time _ _ _ _ h1]

/-- A rate-limiter call finding an empty bucket at the same time stamp:
denied with `Retry-After = ceil((1 - 0) / rate)` and the store unchanged. -/
theorem limited_call (src : RateLimitKeySource) (L : Nat) (T : Rat)
    (req : HttpRequest) (now : Rat) (store0 : BucketStore)
    (hfr : ∀ p ∈ store0, (p.1 == deriveKey src req) = false) :
    TokenBucketRateLimiter.call ⟨src, L, T⟩ req
        ((deriveKey src req, ⟨L, (L : Rat) / T, 0, now⟩) :: store0) now
      = (.limited (⌈((1 : Rat) - 0) / ((L : Rat) / T)⌉.toNat),
         (deriveKey src req, ⟨L, (L : Rat) / T, 0, now⟩) :: store0) := by
  have hq : ¬(1 : Rat) ≤ 0 := by norm_num
  simp [TokenBucketRateLimiter.call, storeAllow, lookupBucket_cons_self,
    allow_same_time_denied _ _ _ _ hq, updateBucket_cons_fresh _ _ _ _ hfr,
    storeRetryAfter, hq]

/-- Back-to-back calls on a bucket holding enough tokens all pass, each one
subtracting one token. -/
theorem runCalls_all_pass (src : RateLimitKeySource) (L : Nat) (T : Rat)
    (req : HttpRequest) (now : Rat) (store0 : BucketStore)
    (hfr : ∀ p ∈ store0, (p.1 == deriveKey src req) = false) :
    ∀ (n : Nat) (q : Rat), (n : Rat) ≤ q →
      runCalls ⟨src, L, T⟩ req now n
          ((deriveKey src req, ⟨L, (L : Rat) / T, q, now⟩) :: store0)
        = (List.replicate n RLCallResult.passed,
           (deriveKey src req, ⟨L, (L : Rat) / T, q - (n : Rat), now⟩) :: store0) := by
  intro n
  induction n with
  | zero => intro q hq; simp [runCalls]
  | succ n ih =>
    intro q hq
    have hq1 : (1 : Rat) ≤ q := by
      have hn : (0 : Rat) ≤ (n : Rat) := Nat.cast_nonneg n
      push_cast at hq
      linarith
    have hcall : TokenBucketRateLimiter.call ⟨src, L, T⟩ req
        ((deriveKey src req, ⟨L, (L : Rat) / T, q, now⟩) :: store0) now
        = (.passed, (deriveKey src req, ⟨L, (L : Rat) / T, q - 1, now⟩) :: store0) := by
      simp [TokenBucketRateLimiter.call, storeAllow, lookupBucket_cons_self,
        allow_same_time _ _ _ _ hq1, updateBucket_cons_fresh _ _ _ _ hfr]
    have ihh := ih (q - 1) (by push_cast at hq ⊢; linarith)
    simp only [runCalls, hcall, ihh]
    rw [show q - 1 - (n : Rat) = q - ((n + 1 : Nat) : Rat) by push_cast; ring,
      List.replicate_succ]

/-- A run of exactly one call. -/
theorem runCalls_one (rl : TokenBucketRateLimiter) (req : HttpRequest) (now : Rat)
    (store : BucketStore) :
    runCalls rl req now 1 store
      = ([(rl.call req store now).1], (rl.call req store now).2) := by
  simp [runCalls]

/-- Splitting a run of calls. -/
theorem runCalls_add (rl : TokenBucketRateLimiter) (req : HttpRequest) (now : Rat)
    (m n : Nat) : ∀ store,
    runCalls rl req now (m + n) store
      = ((runCalls rl req now m store).1
          ++ (runCalls rl req now n (runCalls rl req now m store).2).1,
         (runCalls rl req now n (runCalls rl req now m store).2).2) := by
  induction m with
  | zero => intro store; simp [runCalls]
  | succ m ih =>
    intro store
    rw [show m + 1 + n = (m + n) + 1 by omega]
    simp only [runCalls]
    rw [ih ((rl.call req store now).2)]
    simp

/-- Claim C3: with limit `L > 0` and period `T > 0`, for a key not yet in
the bucket store and no time elapsing between requests, the bucket is
created full and each admitted request subtracts one token (after `k ≤ L`
requests the stored bucket holds `L - k` tokens), the first `L` requests
pass to the rest of the chain, and the `(L+1)`-th is answered with a 429
(empty body) whose `Retry-After` value is
`ceil((1 - available) / refill_rate)` with `available = 0` and
`refill_rate = L / T`. -/
theorem rate_limiter_L_then_429 (src : RateLimitKeySource) (L : Nat) (T : Rat)
    (req : HttpRequest) (store0 : BucketStore) (now : Rat)
    (hL : 0 < L) (hT : 0 < T)
    (hfresh : lookupBucket store0 (deriveKey src req) = none) :
    (∀ k, 1 ≤ k → k ≤ L →
      lookupBucket (runCalls ⟨src, L, T⟩ req now k store0).2 (deriveKey src req)
        = some ⟨L, (L : Rat) / T, (L : Rat) - (k : Rat), now⟩) ∧
    (runCalls ⟨src, L, T⟩ req now (L + 1) store0).1
      = List.replicate L RLCallResult.passed
        ++ [RLCallResult.limited (⌈((1 : Rat) - 0) / ((L : Rat) / T)⌉.toNat)] := by
  have hfr := fresh_of_lookup_none store0 (deriveKey src req) hfresh
  have hfirst := first_call_fresh src L T req now store0 hL hfresh
  constructor
  · intro k hk1 hkL
    obtain ⟨k', rfl⟩ : ∃ k', k = k' + 1 := ⟨k - 1, by omega⟩
    have hcast : (k' : Rat) ≤ (L : Rat) - 1 := by
      have : (k' + 1 : Nat) ≤ L := hkL
      have h2 : ((k' + 1 : Nat) : Rat) ≤ (L : Rat) := Nat.cast_le.mpr this
      push_cast at h2
      linarith
    have hpass := runCalls_all_pass src L T req now store0 hfr k' ((L : Rat) - 1) hcast
    simp only [runCalls, hfirst, hpass]
    rw [lookupBucket_cons_self]
    have harith : (L : Rat) - 1 - (k' : Rat) = (L : Rat) - ((k' + 1 : Nat) : Rat) := by
      push_cast
      ring
    rw [harith]
  · obtain ⟨M, rfl⟩ : ∃ M, L = M + 1 := ⟨L - 1, by omega⟩
    have havail : ((M + 1 : Nat) : Rat) - 1 = (M : Rat) := by push_cast; ring
    have hpass := runCalls_all_pass src (M + 1) T req now store0 hfr M (M : Rat) (le_refl _)
    have hz : (M : Rat) - (M : Rat) = 0 := sub_self _
    rw [hz] at hpass
    have hlim := limited_call src (M + 1) T req now store0 hfr
    rw [show M + 1 + 1 = 1 + (M + 1) by omega, runCalls_add, runCalls_one, hfirst]
    dsimp only
    rw [havail, runCalls_add ⟨src, M + 1, T⟩ req now M 1]
    dsimp only
    rw [hpass]
    dsimp only
    rw [runCalls_one]
    dsimp only
    rw [hlim]
    simp [List.replicate_succ]

/-- Witness for claim C3 with limit 2 and period 60 seconds, keyed by the
client IP. -/
theorem rate_limiter_L_then_429_witness :
    (∀ k, 1 ≤ k → k ≤ 2 →
      lookupBucket (runCalls ⟨.ip none, 2, 60⟩ demoReq 0 k []).2
          (deriveKey (.ip none) demoReq)
        = some ⟨2, ((2 : Nat) : Rat) / 60, ((2 : Nat) : Rat) - (k : Rat), 0⟩) ∧
    (runCalls ⟨.ip none, 2, 60⟩ demoReq 0 (2 + 1) []).1
      = List.replicate 2 RLCallResult.passed
        ++ [RLCallResult.limited (⌈((1 : Rat) - 0) / (((2 : Nat) : Rat) / 60)⌉.toNat)] :=
  rate_limiter_L_then_429 (.ip none) 2 60 demoReq [] 0 (by norm_num) (by norm_num) rfl

/-- `static_config_same` holds exactly when the six static fields agree. -/
theorem static_config_same_iff (p n : GatewayConfig) :
    static_config_same p n = true ↔
      (p.version = n.version ∧ p.admin_api = n.admin_api ∧ p.log = n.log ∧
       p.access_log = n.access_log ∧ p.tls = n.tls ∧ p.listeners = n.listeners) := by
  simp [static_config_same, Bool.and_eq_true, beq_iff_eq, and_assoc]

/-- Claim C6: a reload whose freshly loaded configuration differs from the
applied snapshot in any of the six static fields (version, admin_api, log,
access_log, tls, listeners) returns an error and keeps the current runtime;
when all six agree, a new runtime is built from the loaded configuration and
stored. -/
theorem reload_static_fields (rt : GatewayRuntime) (cfg : GatewayConfig) :
    (¬(rt.applied_config.version = cfg.version ∧
        rt.applied_config.admin_api = cfg.admin_api ∧
        rt.applied_config.log = cfg.log ∧
        rt.applied_config.access_log = cfg.access_log ∧
        rt.applied_config.tls = cfg.tls ∧
        rt.applied_config.listeners = cfg.listeners) →
      reload_config rt (Except.ok cfg)
        = (Except.error "Static fields of config has changed, config not applied", rt)) ∧
    ((rt.applied_config.version = cfg.version ∧
        rt.applied_config.admin_api = cfg.admin_api ∧
        rt.applied_config.log = cfg.log ∧
        rt.applied_config.access_log = cfg.access_log ∧
        rt.applied_config.tls = cfg.tls ∧
        rt.applied_config.listeners = cfg.listeners) →
      reload_config rt (Except.ok cfg) = (Except.ok (), GatewayRuntime.new cfg)) := by
  constructor
  · intro h
    have hs : static_config_same rt.applied_config cfg = false :=
      Bool.eq_false_iff.mpr fun htrue => h ((static_config_same_iff _ _).mp htrue)
    simp [reload_config, hs]
  · intro h
    have hs : static_config_same rt.applied_config cfg = true :=
      (static_config_same_iff _ _).mpr h
    simp [reload_config, hs]

/-- Witness for claim C6: reloading `cfg1` (whose `version` differs) over the
runtime built from `cfg0` is rejected with the current runtime kept. -/
theorem reload_static_fields_witness :
    reload_config rt0 (Except.ok cfg1)
      = (Except.error "Static fields of config has changed, config not applied", rt0) :=
  (reload_static_fields rt0 cfg1).1 (by decide)

/-- Evaluation of `getHeader` on an empty header list. -/
theorem getHeader_nil (name : Str) : getHeader [] name = none := rfl

/-- Evaluation of `getHeader` on a cons cell. -/
theorem getHeader_cons (k v : Str) (rest : Headers) (name : Str) :
    getHeader ((k, v) :: rest) name
      = if (k == name) = true then some v else getHeader rest name := by
  cases hk : k == name
  · rw [getHeader, List.find?_cons_of_neg _ (by simp [hk])]
    simp [getHeader]
  · rw [getHeader, List.find?_cons_of_pos _ (by simp [hk])]
    simp

/-- The three forwarding header names are pairwise distinct. -/
theorem proxy_header_names_distinct :
    (xffName == xfhName) = false ∧ (xffName == xfpName) = false ∧
    (xfhName == xffName) = false ∧ (xfhName == xfpName) = false ∧
    (xfpName == xffName) = false ∧ (xfpName == xfhName) = false := by
  decide

/-- Claim C7: on the outbound request (a fresh builder, as in
`send_upstream`), `x-forwarded-for` equals the original value followed by a
comma and the client IP when the original request carries the header, and
the client IP alone otherwise; `x-forwarded-host` and `x-forwarded-proto`
are set exactly when absent from the original headers. -/
theorem set_proxy_headers_spec (client_ip host proto : Str) (orig : Headers) :
    getHeader (set_proxy_headers client_ip host proto [] orig) xffName
      = some (match getHeader orig xffName with
              | some v => v ++ ",".data ++ client_ip
              | none => client_ip) ∧
    getHeader (set_proxy_headers client_ip host proto [] orig) xfhName
      = (if containsHeader orig xfhName then none else some host) ∧
    getHeader (set_proxy_headers client_ip host proto [] orig) xfpName
      = (if containsHeader orig xfpName then none else some proto) := by
  obtain ⟨d1, d2, d3, d4, d5, d6⟩ := proxy_header_names_distinct
  cases hx : getHeader orig xffName <;>
    cases hh : containsHeader orig xfhName <;>
      cases hp : containsHeader orig xfpName <;>
        simp [set_proxy_headers, hx, hh, hp, getHeader_cons, getHeader_nil,
          d1, d2, d3, d4, d5, d6]

/-- `TokenBucket::refill` preserves capacity and rate, keeps the token count
within `[0, capacity]`, and never decreases the timestamp. -/
theorem refill_invariant (b : TokenBucket) (now : Rat) (hrate : 0 ≤ b.refill_rate)
    (h0 : 0 ≤ b.available_tokens) (h1 : b.available_tokens ≤ (b.capacity : Rat)) :
    (b.refill now).capacity = b.capacity ∧
    (b.refill now).refill_rate = b.refill_rate ∧
    0 ≤ (b.refill now).available_tokens ∧
    (b.refill now).available_tokens ≤ (b.capacity : Rat) ∧
    b.last_refill ≤ (b.refill now).last_refill := by
  simp only [TokenBucket.refill]
  have helap : 0 ≤ max (now - b.last_refill) 0 := le_max_right _ _
  by_cases hpos : 0 < b.refill_rate * max (now - b.last_refill) 0
  · have hlast : b.last_refill ≤ now := by
      have hme : 0 < max (now - b.last_refill) 0 := by
        by_contra hc
        push_neg at hc
        have hz : max (now - b.last_refill) 0 = 0 := le_antisymm hc helap
        rw [hz, mul_zero] at hpos
        exact lt_irrefl _ hpos
      have := (lt_max_iff.mp hme).resolve_right (lt_irrefl 0)
      linarith
    have htok : 0 ≤ b.refill_rate * max (now - b.last_refill) 0 := le_of_lt hpos
    simp only [if_pos hpos]
    refine ⟨trivial, trivial, ?_, ?_, hlast⟩
    · by_cases hcap :
        (b.capacity : Rat) < b.available_tokens + b.refill_rate * max (now - b.last_refill) 0
      · simp only [if_pos hcap]
        exact Nat.cast_nonneg _
      · simp only [if_neg hcap]
        linarith
    · by_cases hcap :
        (b.capacity : Rat) < b.available_tokens + b.refill_rate * max (now - b.last_refill) 0
      · simp only [if_pos hcap, le_refl]
      · simp only [if_neg hcap]
        linarith [not_lt.mp hcap]
  · simp only [if_neg hpos]
    exact ⟨trivial, trivial, h0, h1, le_refl _⟩

/-- `TokenBucket::allow` preserves capacity and rate, keeps the token count
within `[0, capacity]`, and never decreases the timestamp. -/
theorem allow_invariant (b : TokenBucket) (now : Rat) (hrate : 0 ≤ b.refill_rate)
    (h0 : 0 ≤ b.available_tokens) (h1 : b.available_tokens ≤ (b.capacity : Rat)) :
    ((b.allow now).2).capacity = b.capacity ∧
    ((b.allow now).2).refill_rate = b.refill_rate ∧
    0 ≤ ((b.allow now).2).available_tokens ∧
    ((b.allow now).2).available_tokens ≤ (b.capacity : Rat) ∧
    b.last_refill ≤ ((b.allow now).2).last_refill := by
  obtain ⟨hc, hr, ha0, ha1, hl⟩ := refill_invariant b now hrate h0 h1
  simp only [TokenBucket.allow]
  by_cases hge : 1 ≤ (b.refill now).available_tokens
  · simp only [if_pos hge]
    exact ⟨hc, hr, by linarith, by linarith, hl⟩
  · simp only [if_neg hge]
    exact ⟨hc, hr, ha0, ha1, hl⟩

/-- One `step` (an `allow` or a `refill` at an arbitrary time) preserves the
bucket invariant. -/
theorem step_invariant (b : TokenBucket) (op : BucketOp) (hrate : 0 ≤ b.refill_rate)
    (h0 : 0 ≤ b.available_tokens) (h1 : b.available_tokens ≤ (b.capacity : Rat)) :
    (b.step op).capacity = b.capacity ∧
    (b.step op).refill_rate = b.refill_rate ∧
    0 ≤ (b.step op).available_tokens ∧
    (b.step op).available_tokens ≤ (b.capacity : Rat) ∧
    b.last_refill ≤ (b.step op).last_refill := by
  cases op with
  | allowOp now => exact allow_invariant b now hrate h0 h1
  | refillOp now => exact refill_invariant b now hrate h0 h1

/-- The bucket invariant holds along every operation sequence. -/
theorem runOps_invariant (ops : List BucketOp) :
    ∀ (b : TokenBucket), 0 ≤ b.refill_rate → 0 ≤ b.available_tokens →
      b.available_tokens ≤ (b.capacity : Rat) →
      (b.runOps ops).capacity = b.capacity ∧
      (b.runOps ops).refill_rate = b.refill_rate ∧
      0 ≤ (b.runOps ops).available_tokens ∧
      (b.runOps ops).available_tokens ≤ (b.capacity : Rat) ∧
      b.last_refill ≤ (b.runOps ops).last_refill := by
  induction ops with
  | nil =>
    intro b hrate h0 h1
    exact ⟨rfl, rfl, h0, h1, le_refl _⟩
  | cons op ops ih =>
    intro b hrate h0 h1
    obtain ⟨sc, sr, s0, s1, sl⟩ := step_invariant b op hrate h0 h1
    obtain ⟨ic, ir, i0, i1, il⟩ :=
      ih (b.step op) (sr ▸ hrate) s0 (by rw [sc]; exact s1)
    have hrun : b.runOps (op :: ops) = (b.step op).runOps ops := rfl
    rw [hrun]
    exact ⟨by rw [ic, sc], by rw [ir, sr], i0, by rw [sc] at i1; exact i1,
      le_trans sl il⟩

/-- Claim C9: over every sequence of `allow` and `refill` operations the
available token count stays within `[0, capacity]` (the capacity itself
never changes) and the `last_refill` timestamp never decreases. -/
theorem token_bucket_invariant (b : TokenBucket) (ops : List BucketOp)
    (hrate : 0 ≤ b.refill_rate) (h0 : 0 ≤ b.available_tokens)
    (h1 : b.available_tokens ≤ (b.capacity : Rat)) :
    (b.runOps ops).capacity = b.capacity ∧
    0 ≤ (b.runOps ops).available_tokens ∧
    (b.runOps ops).available_tokens ≤ ((b.runOps ops).capacity : Rat) ∧
    b.last_refill ≤ (b.runOps ops).last_refill := by
  obtain ⟨hc, _, hi0, hi1, hl⟩ := runOps_invariant ops b hrate h0 h1
  exact ⟨hc, hi0, by rw [hc]; exact hi1, hl⟩

/-- Witness for claim C9 at a concrete bucket and operation sequence. -/
theorem token_bucket_invariant_witness :
    (demoBucket.runOps demoOps).capacity = demoBucket.capacity ∧
    0 ≤ (demoBucket.runOps demoOps).available_tokens ∧
    (demoBucket.runOps demoOps).available_tokens
      ≤ ((demoBucket.runOps demoOps).capacity : Rat) ∧
    demoBucket.last_refill ≤ (demoBucket.runOps demoOps).last_refill :=
  token_bucket_invariant demoBucket demoOps
    (by norm_num [demoBucket, TokenBucket.new])
    (by norm_num [demoBucket, TokenBucket.new])
    (by norm_num [demoBucket, TokenBucket.new])

/-- The flattened weighted array has one entry per unit of weight. -/
theorem length_weightedOf (us : List Upstream) :
    ∀ s, (weightedOf us s).length = totalWeight us := by
  induction us with
  | nil => intro s; simp [weightedOf, totalWeight]
  | cons u us ih => intro s; simp [weightedOf, totalWeight, ih]

/-- Entries of the weighted array built from start index `s` are at least
`s`. -/
theorem mem_weightedOf (us : List Upstream) :
    ∀ s x, x ∈ weightedOf us s → s ≤ x := by
  induction us with
  | nil => intro s x h; simp [weightedOf] at h
  | cons u us ih =>
    intro s x h
    rw [weightedOf, List.mem_append] at h
    rcases h with h | h
    · rw [List.eq_of_mem_replicate h]
    · exact le_trans (by omega) (ih (s + 1) x h)

/-- The weighted array built from start index `s` contains index `s + k`
exactly `weight` of the `k`-th upstream times. -/
theorem count_weightedOf (us : List Upstream) :
    ∀ s k (h : k < us.length),
      (weightedOf us s).count (s + k) = (us.get ⟨k, h⟩).weight := by
  induction us with
  | nil => intro s k h; simp at h
  | cons u us ih =>
    intro s k h
    cases k with
    | zero =>
      have hz : (weightedOf us (s + 1)).count s = 0 := by
        rw [List.count_eq_zero]
        intro hmem
        have := mem_weightedOf us (s + 1) s hmem
        omega
      simp [weightedOf, List.count_append, List.count_replicate, hz]
    | succ k =>
      have hk : k < us.length := by simpa using Nat.lt_of_succ_lt_succ h
      have hrep : (List.replicate u.weight s).count (s + (k + 1)) = 0 := by
        rw [List.count_eq_zero]
        intro hmem
        have := List.eq_of_mem_replicate hmem
        omega
      rw [weightedOf, List.count_append, hrep, Nat.zero_add,
        show s + (k + 1) = (s + 1) + k by omega, ih (s + 1) k hk]
      rfl

/-- Length of the weighted array of a fresh balancer. -/
theorem weightedArr_length (us : List Upstream) :
    (weightedArr us).length = totalWeight us :=
  length_weightedOf us 0

/-- The weighted array contains index `i` exactly `weight i` times. -/
theorem count_weightedArr (us : List Upstream) (i : Fin us.length) :
    (weightedArr us).count i.val = (us.get i).weight := by
  have := count_weightedOf us 0 i.val i.isLt
  rwa [Nat.zero_add] at this

/-- The weighted array of a pool with positive total weight is non-empty. -/
theorem weightedArr_not_empty (us : List Upstream) (hW : 0 < totalWeight us) :
    (weightedArr us).isEmpty = false := by
  have hlen := weightedArr_length us
  cases hw : weightedArr us with
  | nil => rw [hw] at hlen; simp at hlen; omega
  | cons a l => simp

/-- The sequential cursor after `n` selects equals `n` modulo the total
weight. -/
theorem cursorAfter_mod (us : List Upstream) (hW : 0 < totalWeight us) :
    ∀ n, cursorAfter us n = n % totalWeight us := by
  intro n
  induction n with
  | zero => simp [cursorAfter]
  | succ n ih =>
    rw [cursorAfter]
    simp only [select, ih, weightedArr_not_empty us hW, Bool.false_eq_true, if_false]
    rw [weightedArr_length, Nat.mod_add_mod]

/-- Closed form of the `k`-th sequential selection. -/
theorem nthSelect_eq (us : List Upstream) (hW : 0 < totalWeight us) (k : Nat) :
    nthSelect us k = some ((weightedArr us).getD (k % totalWeight us) 0) := by
  rw [nthSelect]
  simp only [select, cursorAfter_mod us hW k, weightedArr_not_empty us hW,
    Bool.false_eq_true, if_false]

/-- A window of `totalWeight` consecutive selection indices is a rotation of
the weighted array. -/
theorem window_eq_rotate (us : List Upstream) (hW : 0 < totalWeight us) (n : Nat) :
    ((List.range (totalWeight us)).map
        fun j => (weightedArr us).getD ((n + j) % totalWeight us) 0)
      = (weightedArr us).rotate (n % totalWeight us) := by
  have hlen := weightedArr_length us
  apply List.ext_get
  · simp [List.length_rotate, hlen]
  · intro j h1 h2
    have hj : j < totalWeight us := by simpa using h1
    have hmod : (n + j) % totalWeight us < (weightedArr us).length := by
      rw [hlen]; exact Nat.mod_lt _ hW
    rw [List.get_map, List.get_rotate]
    simp only [List.get_range]
    rw [List.getD_eq_get?, List.get?_eq_get hmod]
    have hidx : (n + j) % totalWeight us
        = (j + n % totalWeight us) % (weightedArr us).length := by
      rw [hlen, Nat.add_mod_mod, Nat.add_comm]
    simp [hidx]

/-- Counting through `map some` (the shape `select` returns). -/
theorem count_map_some (l : List Nat) (x : Nat) :
    (l.map some).count (some x) = l.count x := by
  induction l with
  | nil => rfl
  | cons a t ih => simp [List.count_cons, ih]

/-- Claim C4: for a weighted round-robin balancer over upstreams of positive
total weight `W`, the sequence of sequential `select` results is periodic
with period `W`, and any `W` consecutive sequential selects return upstream
`i` exactly `weight i` times. -/
theorem wrr_periodic_and_balanced (us : List Upstream) (hW : 0 < totalWeight us) :
    (∀ k, nthSelect us (k + totalWeight us) = nthSelect us k) ∧
    (∀ (n : Nat) (i : Fin us.length),
      (((List.range (totalWeight us)).map fun j => nthSelect us (n + j)).count
          (some i.val))
        = (us.get i).weight) := by
  constructor
  · intro k
    rw [nthSelect_eq us hW, nthSelect_eq us hW, Nat.add_mod_right]
  · intro n i
    have hmap : ((List.range (totalWeight us)).map fun j => nthSelect us (n + j))
        = ((List.range (totalWeight us)).map
            fun j => (weightedArr us).getD ((n + j) % totalWeight us) 0).map some := by
      rw [List.map_map]
      apply List.map_congr_left
      intro j hj
      rw [Function.comp_apply, nthSelect_eq us hW]
    rw [hmap, count_map_some, window_eq_rotate us hW n,
      (List.rotate_perm _ _).count_eq, count_weightedArr]

/-- Witness for claim C4 at a concrete pool with weights 2 and 1. -/
theorem wrr_periodic_and_balanced_witness :
    (∀ k, nthSelect demoUpstreams (k + totalWeight demoUpstreams)
        = nthSelect demoUpstreams k) ∧
    (∀ (n : Nat) (i : Fin demoUpstreams.length),
      (((List.range (totalWeight demoUpstreams)).map
          fun j => nthSelect demoUpstreams (n + j)).count (some i.val))
        = (demoUpstreams.get i).weight) :=
  wrr_periodic_and_balanced demoUpstreams (by decide)

/-- Characterization of `maxByKeyLast`: on a non-empty list it returns the
last element of maximal key: everything before it has key at most its key,
everything after it has strictly smaller key. -/
theorem maxByKeyLast_spec (f : α → Nat) (l : List α) (hl : l ≠ []) :
    ∃ r l1 l2, maxByKeyLast f l = some r ∧ l = l1 ++ r :: l2 ∧
      (∀ x ∈ l1, f x ≤ f r) ∧ (∀ x ∈ l2, f x < f r) := by
  induction l with
  | nil => exact absurd rfl hl
  | cons x xs ih =>
    rcases eq_or_ne xs [] with rfl | hne
    · exact ⟨x, [], [], by simp [maxByKeyLast], rfl, by simp, by simp⟩
    · obtain ⟨r, l1, l2, hmax, hdecomp, hle, hlt⟩ := ih hne
      by_cases hfx : f r < f x
      · refine ⟨x, [], xs, ?_, rfl, by simp, ?_⟩
        · simp [maxByKeyLast, hmax, hfx]
        · intro z hz
          rw [hdecomp] at hz
          rcases List.mem_append.mp hz with h1 | h2
          · exact lt_of_le_of_lt (hle z h1) hfx
          · rcases List.mem_cons.mp h2 with rfl | h3
            · exact hfx
            · exact lt_trans (hlt z h3) hfx
      · refine ⟨r, x :: l1, l2, ?_, by rw [hdecomp, List.cons_append], ?_, hlt⟩
        · simp [maxByKeyLast, hmax, hfx]
        · intro z hz
          rcases List.mem_cons.mp hz with rfl | h1
          · exact not_lt.mp hfx
          · exact hle z h1

/-- Claim C1, counterexample: two routes with identical predicates and equal
precedence score (both declare hosts only); the claim says the earliest
declared route is returned, but `get_route` returns the later one
(`max_by_key` keeps the last maximal element). -/
theorem get_route_tie_counterexample :
    get_route [routeA, routeB] "h".data "/x".data "l".data = some routeB ∧
      routeB ≠ routeA := by
  decide

/-- Claim C1 (amended): whenever some configured route matches the listener,
host and path predicates, `get_route` returns a matching route of maximal
precedence score, and among the matches of maximal score the one declared
LATEST in the route list is returned (every match after the returned one
scores strictly lower, every match before it scores at most the same). -/
theorem get_route_max_score_latest (routes : List Route) (host path listener : Str)
    (hne : routes.filter (routeMatches host path listener) ≠ []) :
    ∃ r l1 l2,
      get_route routes host path listener = some r ∧
      routes.filter (routeMatches host path listener) = l1 ++ r :: l2 ∧
      (∀ x ∈ l1, Route.score x ≤ Route.score r) ∧
      (∀ x ∈ l2, Route.score x < Route.score r) := by
  obtain ⟨r, l1, l2, h1, h2, h3, h4⟩ := maxByKeyLast_spec Route.score _ hne
  exact ⟨r, l1, l2, h1, h2, h3, h4⟩

/-- Witness for the amended claim C1 at a concrete router with a score tie. -/
theorem get_route_max_score_latest_witness :
    ∃ r l1 l2,
      get_route [routeA, routeB] "h".data "/x".data "l".data = some r ∧
      [routeA, routeB].filter (routeMatches "h".data "/x".data "l".data) = l1 ++ r :: l2 ∧
      (∀ x ∈ l1, Route.score x ≤ Route.score r) ∧
      (∀ x ∈ l2, Route.score x < Route.score r) :=
  get_route_max_score_latest [routeA, routeB] "h".data "/x".data "l".data (by decide)

/-- Claim C2: evaluation of the wildcard path predicate. The pattern
`/v1/*` accepts `/v1`, `/v1/`, `/v1/x` and `/v1/x/y` as the claim states,
but it ALSO accepts `/v10`: for a request path that does not end in a slash
the code tests `starts_with` against the prefix with its trailing slash
removed, so any path extending the bare prefix matches. The claim (and the
spec property it quotes) says `/v10` must not match. -/
theorem match_path_wildcard_eval :
    matchPath "/v1".data "/v1/*".data = true ∧
    matchPath "/v1/".data "/v1/*".data = true ∧
    matchPath "/v1/x".data "/v1/*".data = true ∧
    matchPath "/v1/x/y".data "/v1/*".data = true ∧
    matchPath "/v10".data "/v1/*".data = true := by
  decide

/-- Claim C5: evaluation of `create_chain` at a route that declares one
rate-limit middleware. The produced chain is only `[request_id, access_log]`:
the declared rate-limit middleware is dropped, while the claim says every
declared middleware (add_prefix or rate_limit) follows in the chain. -/
theorem create_chain_drops_rate_limit :
    create_chain [MiddlewareConfig.rateLimitMw (.ip none) 2 60]
      = [Mw.requestId, Mw.accessLog] := by
  rfl

/-- Claim C8, counterexample: a response with status 301 (a 3xx status) is
logged at ERROR level, while the claim says 2xx and 3xx responses are logged
at INFO level (`StatusCode::is_success` covers only 2xx). -/
theorem access_logger_3xx_counterexample :
    (accessLoggerCall reqNoHost (fun _ => 301) 0).2.map Prod.fst = [LogLevel.error] ∧
      LogLevel.error ≠ LogLevel.info := by
  decide

/-- Claim C8 (amended): for every request completing the chain, the access
logger emits exactly one record, at INFO level when the response status is
2xx and at ERROR level for every other status (including 3xx). -/
theorem access_logger_one_record (req : HttpRequest) (inner : HttpRequest → Nat)
    (d : Nat) :
    (accessLoggerCall req inner d).2.length = 1 ∧
    (accessLoggerCall req inner d).2.map Prod.fst
      = [if 200 ≤ inner req ∧ inner req ≤ 299 then LogLevel.info else LogLevel.error] := by
  unfold accessLoggerCall
  by_cases h : isSuccessStatus (inner req) = true
  · have h2 : 200 ≤ inner req ∧ inner req ≤ 299 := by
      simpa [isSuccessStatus, Bool.and_eq_true, decide_eq_true_eq] using h
    simp [h, h2]
  · have h2 : ¬(200 ≤ inner req ∧ inner req ≤ 299) := by
      simpa [isSuccessStatus, Bool.and_eq_true, decide_eq_true_eq] using h
    simp [h, h2]

/-- Claim C10: a request with neither a Host header nor a URI authority makes
the host extraction of `handle_client` unwrap `None` and panic, and every
request carrying a Host header or a URI authority avoids the panicking
branch. -/
theorem handle_client_host_unwrap :
    extractHost reqNoHost = HostExtraction.panicked ∧
    (∀ req : HttpRequest,
      (getHeader req.headers "host".data).isSome = true ∨ req.uriHost.isSome = true →
        extractHost req ≠ HostExtraction.panicked) := by
  refine ⟨by decide, ?_⟩
  intro req h
  unfold extractHost
  cases hh : getHeader req.headers "host".data with
  | some v => simp
  | none =>
    cases hu : req.uriHost with
    | some v => simp
    | none => simp [hh, hu] at h

/-- Witness for claim C10 at a request that carries a Host header. -/
theorem handle_client_host_unwrap_witness :
    extractHost reqWithHost ≠ HostExtraction.panicked :=
  handle_client_host_unwrap.2 reqWithHost (Or.inl (by decide))

end Portiq
